import Mathlib

/-!
Verification of the QSO map generator core (generate_map.py): the ADIF
decoder (parse_adif), the Maidenhead locator resolver
(maidenhead_to_latlon) and the duplicate-location jitter
(add_jitter_to_duplicates).  Strings are modelled as lists of
characters, Python floats as exact rationals (all constants appearing in
the locator arithmetic are exactly representable or commented where
not), and the display coordinates produced by the jitter as real numbers
because they involve sin and cos.  Python exceptions are modelled with
Option: a Python path that raises and is caught corresponds to a none
that the caller turns into the fallback the source uses.
-/

namespace QSO

/-- Characters stripped by the Python str.strip method, restricted to the
ASCII whitespace characters (space, tab, newline, carriage return,
vertical tab, form feed); the model does not cover further Unicode
whitespace, which never occurs in the inputs considered here. -/
def pyIsSpace (c : Char) : Bool :=
  c.toNat = 32 || c.toNat = 9 || c.toNat = 10 || c.toNat = 13 ||
    c.toNat = 11 || c.toNat = 12

/-- Python str.strip with no argument: remove leading and trailing
whitespace. -/
def pyStrip (s : List Char) : List Char :=
  ((s.dropWhile pyIsSpace).reverse.dropWhile pyIsSpace).reverse

/-- Python str.split with a one-character separator: split at every
occurrence of the separator; always returns at least one (possibly
empty) piece, exactly as the Python method does. -/
def splitChar (sep : Char) : List Char → List (List Char)
  | [] => [[]]
  | c :: cs =>
    if c = sep then [] :: splitChar sep cs
    else
      match splitChar sep cs with
      | [] => [[c]]
      | p :: ps => (c :: p) :: ps

/-- Python str.split with a one-character separator and maxsplit 1, as in
part.split(gt, 1) in parse_adif: none when the separator does not occur,
otherwise the text before the first occurrence and the text after it. -/
def splitFirst (sep : Char) : List Char → Option (List Char × List Char)
  | [] => none
  | c :: cs =>
    if c = sep then some ([], cs)
    else
      match splitFirst sep cs with
      | none => none
      | some pq => some (c :: pq.1, pq.2)

/-- Is the character an ASCII decimal digit. -/
def isDigitChar (c : Char) : Bool :=
  48 ≤ c.toNat && c.toNat ≤ 57

/-- Value of a list of ASCII digits read in base ten. -/
def digitsVal (ds : List Char) : ℕ :=
  ds.foldl (fun a d => a * 10 + (d.toNat - 48)) 0

/-- Python int applied to a string, modelled on the ASCII fragment:
surrounding whitespace is stripped, an optional single sign is accepted,
and the remainder must be a nonempty run of ASCII decimal digits;
everything else raises ValueError, modelled as none.  (CPython also
accepts Unicode digits and underscore separators; those never occur in
the inputs considered here.) -/
def pyInt? (s : List Char) : Option ℤ :=
  match pyStrip s with
  | [] => none
  | c :: cs =>
    let nd : Bool × List Char :=
      if c = '-' then (true, cs)
      else if c = '+' then (false, cs) else (false, c :: cs)
    if nd.2 = [] then none
    else if nd.2.all isDigitChar then
      some (if nd.1 then -(digitsVal nd.2 : ℤ) else (digitsVal nd.2 : ℤ))
    else none

/-- One decoded ADIF record: the Python dict from field names to values,
modelled as an association list in insertion order. -/
abbrev AdifRecord := List (List Char × List Char)

/-- Python dict assignment d[k] = v on the association-list model:
overwrite the value in place when the key is present, append otherwise
(Python dicts keep insertion order). -/
def dictSet (d : AdifRecord) (k v : List Char) : AdifRecord :=
  if d.any (fun p => p.1 == k) then
    d.map (fun p => if p.1 == k then (k, v) else p)
  else d ++ [(k, v)]

/-- The delimiter-based value extraction of parse_adif when no usable
length is declared: rest.split(lt)[0] if lt in rest else rest, written
exactly as in the source. -/
def delimTake (rest : List Char) : List Char :=
  if rest.contains '<' then (splitChar '<' rest).headD [] else rest

/-- The raw field value of one tag in parse_adif, before stripping: when a
declared length is present after the first colon and parses to a
positive number, take that many characters of the text after the closing
bracket (the source guard field_length and field_length greater than
zero makes None, zero and negative lengths all fall through); in every
other case, including an unparsable length whose int error is swallowed
by the bare except, fall back to delimiter extraction. -/
def extractRaw (tagRest : List (List Char)) (rest : List Char) : List Char :=
  match tagRest with
  | [] => delimTake rest
  | lenStr :: _ =>
    match pyInt? lenStr with
    | some n => if 0 < n then rest.take n.toNat else delimTake rest
    | none => delimTake rest

/-- One iteration of the for part in parts loop of parse_adif, acting on
the state (records so far, current record).  Mirrors the source line by
line: skip parts that strip to empty or contain no closing bracket,
split the part at the first closing bracket into tag and rest, split the
tag at colons, uppercase and strip the field name, flush the current
record on EOR, otherwise extract the value per extractRaw, strip it and
store it in the current record when nonempty. -/
def processPart (st : List AdifRecord × AdifRecord) (part : List Char) :
    List AdifRecord × AdifRecord :=
  if pyStrip part = [] then st
  else
    match splitFirst '>' part with
    | none => st
    | some tr =>
      match splitChar ':' tr.1 with
      | [] => st
      | fname :: tagRest =>
        if pyStrip (fname.map Char.toUpper) = ['E', 'O', 'R'] then
          (if st.2 = [] then st.1 else st.1 ++ [st.2], [])
        else
          if pyStrip (extractRaw tagRest tr.2) = [] then st
          else
            (st.1, dictSet st.2 (pyStrip (fname.map Char.toUpper))
              (pyStrip (extractRaw tagRest tr.2)))

/-- The final lines of parse_adif: append the still-open current record to
the list of records when it is nonempty. -/
def finishRecords (st : List AdifRecord × AdifRecord) : List AdifRecord :=
  if st.2 = [] then st.1 else st.1 ++ [st.2]

/-- parse_adif from generate_map.py: split the input at every opening
bracket, fold the per-part processing over the pieces, and append the
trailing current record when it is nonempty.  (The DataFrame
construction and the print diagnostics of the source are presentation
glue and are not part of the decoded-records value.) -/
def parse_adif (input : List Char) : List AdifRecord :=
  finishRecords ((splitChar '<' input).foldl processPart ([], []))

/-- Python int applied to a one-character string, as in int(grid[2]) in
maidenhead_to_latlon: the digit value for an ASCII digit, none
(ValueError) otherwise. -/
def charDigit? (c : Char) : Option ℤ :=
  if 48 ≤ c.toNat ∧ c.toNat ≤ 57 then some ((c.toNat : ℤ) - 48) else none

/-- The square step of maidenhead_to_latlon: when the (stripped,
uppercased) locator has length at least 4, add twice the third digit to
the longitude and the fourth digit to the latitude; a non-digit in
either position raises, modelled as none. -/
def squareAdd (g : List Char) (lat lon : ℚ) : Option (ℚ × ℚ) :=
  if 4 ≤ g.length then
    match (g[2]?).bind charDigit?, (g[3]?).bind charDigit? with
    | some d2, some d3 => some (lat + (d3 : ℚ), lon + (d2 : ℚ) * 2)
    | _, _ => none
  else some (lat, lon)

/-- The subsquare step of maidenhead_to_latlon: when the locator has
length at least 6, add the letter offsets of characters 5 and 6 scaled
by 2/24 and 1/24.  Python ord accepts every character, so this step
never raises. -/
def subsquareAdd (g : List Char) (lat lon : ℚ) : ℚ × ℚ :=
  if 6 ≤ g.length then
    match g[4]?, g[5]? with
    | some c4, some c5 =>
      (lat + ((c5.toNat : ℚ) - 65) * (1 / 24),
        lon + ((c4.toNat : ℚ) - 65) * (2 / 24))
    | _, _ => (lat, lon)
  else (lat, lon)

/-- The extended-square step of maidenhead_to_latlon: when the locator
has length at least 8, add the digit values of characters 7 and 8 scaled
by 2/240 and 1/240; a non-digit raises, modelled as none. -/
def extendedAdd (g : List Char) (lat lon : ℚ) : Option (ℚ × ℚ) :=
  if 8 ≤ g.length then
    match (g[6]?).bind charDigit?, (g[7]?).bind charDigit? with
    | some d6, some d7 =>
      some (lat + (d7 : ℚ) * (1 / 240), lon + (d6 : ℚ) * (2 / 240))
    | _, _ => none
  else some (lat, lon)

/-- The final centering step of maidenhead_to_latlon: when the locator
has length at least 4, add 1 to the longitude and 0.5 to the latitude
(the source comment calls this the center of the square; it is applied
unconditionally of whether a subsquare was resolved). -/
def centerAdd (g : List Char) (lat lon : ℚ) : ℚ × ℚ :=
  if 4 ≤ g.length then (lat + 1 / 2, lon + 1) else (lat, lon)

/-- maidenhead_to_latlon from generate_map.py.  Inputs shorter than 4
characters (including the empty string, falsy in Python) return the
unresolved sentinel, modelled as none.  The locator is uppercased
(ASCII) and stripped, the field letters are read with ord (which accepts
any character), and the square, subsquare, extended-square and centering
steps are applied in source order; any raising step is caught by the
surrounding try/except and becomes none.  Indexing characters 1 and 2
can raise IndexError when stripping shortens the string, hence the
match.  The returned pair is (latitude, longitude). -/
def maidenhead_to_latlon (grid : List Char) : Option (ℚ × ℚ) :=
  if grid.length < 4 then none
  else
    let g := pyStrip (grid.map Char.toUpper)
    match g[0]?, g[1]? with
    | some c0, some c1 =>
      let lon : ℚ := ((c0.toNat : ℚ) - 65) * 20 - 180
      let lat : ℚ := ((c1.toNat : ℚ) - 65) * 10 - 90
      (squareAdd g lat lon).bind fun q =>
        let s := subsquareAdd g q.1 q.2
        (extendedAdd g s.1 s.2).map fun e => centerAdd g e.1 e.2
    | _, _ => none

/-- One row of add_jitter_to_duplicates from generate_map.py.  The source
initialises the adjusted columns to the true coordinates, groups rows by
the exact (lat, lon) pair, and for every group of size above one walks
its rows in frame order, leaving the first row and overwriting the
adjusted pair of the row of in-group index i with
lat plus 0.15 times sin of 2 times 3.14159 times i over the group size
(and cos for lon).  The groups are disjoint and every row is written at
most once, so the loop is equivalent to this per-row form, where the
group size is the number of equal-coordinate rows in the whole frame and
i is the number of equal-coordinate rows strictly before position k.
The np.random.seed call in the source consumes no randomness in the
placement, so nothing random is modelled.  The source literal 3.14159
(not pi) and the radius 0.15 are kept; the display pair is real-valued
because of sin and cos, which makes these definitions noncomputable in
an exact real model. -/
noncomputable def jitterRow (base : List (ℚ × ℚ)) (k : ℕ) (p : ℚ × ℚ) :
    (ℚ × ℚ) × (ℝ × ℝ) :=
  if 1 < (base.filter (fun q => decide (q = p))).length ∧
      0 < ((base.take k).filter (fun q => decide (q = p))).length then
    (p, ((p.1 : ℝ) + 0.15 * Real.sin
        ((2 * 3.14159 * (((base.take k).filter (fun q => decide (q = p))).length : ℝ)) /
          ((base.filter (fun q => decide (q = p))).length : ℝ)),
      (p.2 : ℝ) + 0.15 * Real.cos
        ((2 * 3.14159 * (((base.take k).filter (fun q => decide (q = p))).length : ℝ)) /
          ((base.filter (fun q => decide (q = p))).length : ℝ))))
  else (p, ((p.1 : ℝ), (p.2 : ℝ)))

/-- Apply jitterRow to every row of the tail list, where k is the frame
position of its head. -/
noncomputable def jitterFrom (base : List (ℚ × ℚ)) :
    ℕ → List (ℚ × ℚ) → List ((ℚ × ℚ) × (ℝ × ℝ))
  | _, [] => []
  | k, p :: rest => jitterRow base k p :: jitterFrom base (k + 1) rest

/-- add_jitter_to_duplicates from generate_map.py: every row keeps its
true (lat, lon) pair (first component) and gains a display pair
(lat_adjusted, lon_adjusted; second component). -/
noncomputable def add_jitter_to_duplicates (df : List (ℚ × ℚ)) :
    List ((ℚ × ℚ) × (ℝ × ℝ)) :=
  jitterFrom df 0 df

/-- A character whose code is at least 33 is not ASCII whitespace. -/
lemma nonspace_of_ge (c : Char) (h : 33 ≤ c.toNat) : pyIsSpace c = false := by
  simp only [pyIsSpace, Bool.or_eq_false_iff, decide_eq_false_iff_not]
  omega

/-- ASCII uppercasing fixes every character below the lowercase range. -/
lemma toUpper_eq_self (c : Char) (h : c.toNat < 97) : c.toUpper = c := by
  simp only [Char.toUpper]
  rw [if_neg (by omega)]

/-- dropWhile is the identity when the predicate fails on every element. -/
lemma dropWhile_eq_self_of (p : Char → Bool) (s : List Char)
    (h : ∀ c ∈ s, p c = false) : s.dropWhile p = s := by
  induction s with
  | nil => rfl
  | cons a t ih =>
    rw [List.dropWhile_cons, if_neg (by simp [h a (by simp)])]

/-- Stripping is the identity on a string with no whitespace at all. -/
lemma pyStrip_eq_self (s : List Char) (h : ∀ c ∈ s, pyIsSpace c = false) :
    pyStrip s = s := by
  unfold pyStrip
  rw [dropWhile_eq_self_of _ _ h,
    dropWhile_eq_self_of _ _ (by intro c hc; exact h c (List.mem_reverse.1 hc)),
    List.reverse_reverse]

/-- Evaluation of maidenhead_to_latlon on a 4-character locator whose
characters are printable, below the lowercase range in the two letter
positions and ASCII digits in the two digit positions: the base corner
plus the square offsets plus the half-square centering. -/
lemma maidenhead_eval4 (c0 c1 d2 d3 : Char)
    (h0a : 33 ≤ c0.toNat) (h0b : c0.toNat < 97)
    (h1a : 33 ≤ c1.toNat) (h1b : c1.toNat < 97)
    (h2a : 48 ≤ d2.toNat) (h2b : d2.toNat ≤ 57)
    (h3a : 48 ≤ d3.toNat) (h3b : d3.toNat ≤ 57) :
    maidenhead_to_latlon [c0, c1, d2, d3] =
      some (((c1.toNat : ℚ) - 65) * 10 - 90 + ((d3.toNat : ℚ) - 48) + 1 / 2,
        ((c0.toNat : ℚ) - 65) * 20 - 180 + ((d2.toNat : ℚ) - 48) * 2 + 1) := by
  have hmap : List.map Char.toUpper [c0, c1, d2, d3] = [c0, c1, d2, d3] := by
    simp [toUpper_eq_self c0 h0b, toUpper_eq_self c1 h1b,
      toUpper_eq_self d2 (by omega), toUpper_eq_self d3 (by omega)]
  have hstrip : pyStrip [c0, c1, d2, d3] = [c0, c1, d2, d3] := by
    refine pyStrip_eq_self _ ?_
    intro c hc
    simp only [List.mem_cons, List.not_mem_nil, or_false] at hc
    rcases hc with rfl | rfl | rfl | rfl <;> exact nonspace_of_ge _ (by omega)
  have e2 : charDigit? d2 = some ((d2.toNat : ℤ) - 48) := by
    unfold charDigit?
    rw [if_pos ⟨h2a, h2b⟩]
  have e3 : charDigit? d3 = some ((d3.toNat : ℤ) - 48) := by
    unfold charDigit?
    rw [if_pos ⟨h3a, h3b⟩]
  have hsq : squareAdd [c0, c1, d2, d3] (((c1.toNat : ℚ) - 65) * 10 - 90)
      (((c0.toNat : ℚ) - 65) * 20 - 180) =
      some ((((c1.toNat : ℚ) - 65) * 10 - 90) + ((d3.toNat : ℚ) - 48),
        (((c0.toNat : ℚ) - 65) * 20 - 180) + ((d2.toNat : ℚ) - 48) * 2) := by
    simp only [squareAdd, List.length_cons, List.length_nil]
    rw [if_pos (by norm_num)]
    rw [show ([c0, c1, d2, d3][2]?) = some d2 from rfl,
      show ([c0, c1, d2, d3][3]?) = some d3 from rfl]
    rw [Option.some_bind, Option.some_bind, e2, e3]
    push_cast
    ring_nf
  simp only [maidenhead_to_latlon, hmap, hstrip]
  rw [if_neg (by norm_num)]
  rw [show ([c0, c1, d2, d3][0]?) = some c0 from rfl,
    show ([c0, c1, d2, d3][1]?) = some c1 from rfl]
  simp only [hsq, Option.some_bind, subsquareAdd, extendedAdd, centerAdd,
    List.length_cons, List.length_nil]
  norm_num

/-- Evaluation of maidenhead_to_latlon on a 6-character locator whose
characters are printable, below the lowercase range in the letter
positions and ASCII digits in the digit positions: the base corner plus
square and subsquare offsets plus the half-SQUARE centering of the
source. -/
lemma maidenhead_eval6 (c0 c1 d2 d3 c4 c5 : Char)
    (h0a : 33 ≤ c0.toNat) (h0b : c0.toNat < 97)
    (h1a : 33 ≤ c1.toNat) (h1b : c1.toNat < 97)
    (h2a : 48 ≤ d2.toNat) (h2b : d2.toNat ≤ 57)
    (h3a : 48 ≤ d3.toNat) (h3b : d3.toNat ≤ 57)
    (h4a : 33 ≤ c4.toNat) (h4b : c4.toNat < 97)
    (h5a : 33 ≤ c5.toNat) (h5b : c5.toNat < 97) :
    maidenhead_to_latlon [c0, c1, d2, d3, c4, c5] =
      some (((c1.toNat : ℚ) - 65) * 10 - 90 + ((d3.toNat : ℚ) - 48) +
          ((c5.toNat : ℚ) - 65) * (1 / 24) + 1 / 2,
        ((c0.toNat : ℚ) - 65) * 20 - 180 + ((d2.toNat : ℚ) - 48) * 2 +
          ((c4.toNat : ℚ) - 65) * (2 / 24) + 1) := by
  have hmap : List.map Char.toUpper [c0, c1, d2, d3, c4, c5] =
      [c0, c1, d2, d3, c4, c5] := by
    simp [toUpper_eq_self c0 h0b, toUpper_eq_self c1 h1b,
      toUpper_eq_self d2 (by omega), toUpper_eq_self d3 (by omega),
      toUpper_eq_self c4 h4b, toUpper_eq_self c5 h5b]
  have hstrip : pyStrip [c0, c1, d2, d3, c4, c5] = [c0, c1, d2, d3, c4, c5] := by
    refine pyStrip_eq_self _ ?_
    intro c hc
    simp only [List.mem_cons, List.not_mem_nil, or_false] at hc
    rcases hc with rfl | rfl | rfl | rfl | rfl | rfl <;>
      exact nonspace_of_ge _ (by omega)
  have e2 : charDigit? d2 = some ((d2.toNat : ℤ) - 48) := by
    unfold charDigit?
    rw [if_pos ⟨h2a, h2b⟩]
  have e3 : charDigit? d3 = some ((d3.toNat : ℤ) - 48) := by
    unfold charDigit?
    rw [if_pos ⟨h3a, h3b⟩]
  have hsq : squareAdd [c0, c1, d2, d3, c4, c5]
      (((c1.toNat : ℚ) - 65) * 10 - 90) (((c0.toNat : ℚ) - 65) * 20 - 180) =
      some ((((c1.toNat : ℚ) - 65) * 10 - 90) + ((d3.toNat : ℚ) - 48),
        (((c0.toNat : ℚ) - 65) * 20 - 180) + ((d2.toNat : ℚ) - 48) * 2) := by
    simp only [squareAdd, List.length_cons, List.length_nil]
    rw [if_pos (by norm_num)]
    rw [show ([c0, c1, d2, d3, c4, c5][2]?) = some d2 from rfl,
      show ([c0, c1, d2, d3, c4, c5][3]?) = some d3 from rfl]
    rw [Option.some_bind, Option.some_bind, e2, e3]
    push_cast
    ring_nf
  simp only [maidenhead_to_latlon, hmap, hstrip]
  rw [if_neg (by norm_num)]
  rw [show ([c0, c1, d2, d3, c4, c5][0]?) = some c0 from rfl,
    show ([c0, c1, d2, d3, c4, c5][1]?) = some c1 from rfl]
  simp only [hsq, Option.some_bind, subsquareAdd, extendedAdd, centerAdd,
    List.length_cons, List.length_nil]
  rw [show ([c0, c1, d2, d3, c4, c5][4]?) = some c4 from rfl,
    show ([c0, c1, d2, d3, c4, c5][5]?) = some c5 from rfl]
  norm_num

/-- C1, counterexample: the input consisting of a single band field and an
end-of-record marker decodes to ONE record (holding only the band), not
to zero records; parse_adif never requires a CALL value. -/
theorem C1_counterexample :
    parse_adif ("<BAND:3>20M<EOR>".toList) = [[("BAND".toList, "20M".toList)]] ∧
    parse_adif ("<BAND:3>20M<EOR>".toList) ≠ [] := by
  decide

/-- C2: evaluating the code on the 6-character locator AA00AA.  The
returned point is the base corner plus the zero square and subsquare
contributions plus a half SQUARE cell (0.5 latitude, 1 longitude), i.e.
(-89.5, -179); the subsquare center demanded by the claim would instead
add half a subsquare cell, (1/24)/2 latitude and (2/24)/2 longitude,
giving (-90 + 1/48, -180 + 1/24), a different point. -/
theorem C2_code_eval :
    maidenhead_to_latlon ("AA00AA".toList) = some (-(179 / 2 : ℚ), -179) ∧
    (-90 + (1 / 24) / 2 : ℚ) < -(179 / 2) ∧ (-180 + (2 / 24) / 2 : ℚ) < -179 := by
  refine ⟨?_, by norm_num, by norm_num⟩
  have h := maidenhead_eval6 'A' 'A' '0' '0' 'A' 'A'
    (by decide) (by decide) (by decide) (by decide) (by decide) (by decide)
    (by decide) (by decide) (by decide) (by decide) (by decide) (by decide)
  rw [show ("AA00AA".toList) = ['A', 'A', '0', '0', 'A', 'A'] from rfl, h]
  norm_num [show 'A'.toNat = 65 from rfl, show '0'.toNat = 48 from rfl]

/-- C3, counterexample: the decoder uppercases tag names but never
case-folds values, so the lowercase and uppercase spellings of the same
record decode to records with differently-cased CALL values. -/
theorem C3_counterexample :
    parse_adif ("<call:5>w1abc<eor>".toList) ≠
      parse_adif ("<CALL:5>W1ABC<EOR>".toList) := by
  decide

/-- C3, amended: tag names and the end-of-record marker are matched
case-insensitively and canonicalized to uppercase, but values keep their
case (they are only whitespace-trimmed): the lowercase input yields
CALL equal to w1abc, the uppercase input CALL equal to W1ABC. -/
theorem C3_amended :
    parse_adif ("<call:5>w1abc<eor>".toList) =
      [[("CALL".toList, "w1abc".toList)]] ∧
    parse_adif ("<CALL:5>W1ABC<EOR>".toList) =
      [[("CALL".toList, "W1ABC".toList)]] := by
  decide

/-- C4, counterexample: parse_adif performs no HTML entity decoding; a
CALL field whose declared length covers the literal text A&amp;B is
extracted verbatim, not decoded to A&B. -/
theorem C4_counterexample :
    parse_adif ("<CALL:7>A&amp;B<EOR>".toList) ≠
      [[("CALL".toList, "A&B".toList)]] ∧
    parse_adif ("<CALL:7>A&amp;B<EOR>".toList) =
      [[("CALL".toList, "A&amp;B".toList)]] := by
  decide

/-- C4, amended: the decoder leaves HTML entity sequences untouched; the
extracted value for a field whose raw text holds an entity sequence
contains the entity text itself. -/
theorem C4_amended :
    parse_adif ("<CALL:6>X&lt;Y<EOR>".toList) =
      [[("CALL".toList, "X&lt;Y".toList)]] := by
  decide

/-- C5: for every valid 4-character Maidenhead locator (uppercase letters
between A and R in the first two positions, ASCII digits in the last
two), maidenhead_to_latlon returns exactly the degree-square center of
the documented formula: latitude is (code of char 2 minus code of A)
times 10 minus 90 plus digit 4 times 1 plus 0.5, longitude is (code of
char 1 minus code of A) times 20 minus 180 plus digit 3 times 2 plus 1.
-/
theorem C5_square_center (c0 c1 d2 d3 : Char)
    (h0a : 65 ≤ c0.toNat) (h0b : c0.toNat ≤ 82)
    (h1a : 65 ≤ c1.toNat) (h1b : c1.toNat ≤ 82)
    (h2a : 48 ≤ d2.toNat) (h2b : d2.toNat ≤ 57)
    (h3a : 48 ≤ d3.toNat) (h3b : d3.toNat ≤ 57) :
    maidenhead_to_latlon [c0, c1, d2, d3] =
      some (((c1.toNat : ℚ) - 65) * 10 - 90 + ((d3.toNat : ℚ) - 48) * 1 + 0.5,
        ((c0.toNat : ℚ) - 65) * 20 - 180 + ((d2.toNat : ℚ) - 48) * 2 + 1) := by
  rw [maidenhead_eval4 c0 c1 d2 d3 (by omega) (by omega) (by omega) (by omega)
    h2a h2b h3a h3b]
  norm_num

/-- C5, witness: the locator FN20 satisfies the hypotheses and resolves to
latitude 40.5 and longitude -75. -/
theorem C5_square_center_witness :
    (65 ≤ 'F'.toNat ∧ 'F'.toNat ≤ 82 ∧ 65 ≤ 'N'.toNat ∧ 'N'.toNat ≤ 82 ∧
      48 ≤ '2'.toNat ∧ '2'.toNat ≤ 57 ∧ 48 ≤ '0'.toNat ∧ '0'.toNat ≤ 57) ∧
    maidenhead_to_latlon ("FN20".toList) = some (81 / 2, -75) :=
  ⟨by decide, by
    have h := C5_square_center 'F' 'N' '2' '0' (by decide) (by decide)
      (by decide) (by decide) (by decide) (by decide) (by decide) (by decide)
    rw [show ("FN20".toList) = ['F', 'N', '2', '0'] from rfl, h]
    norm_num [show 'F'.toNat = 70 from rfl, show 'N'.toNat = 78 from rfl,
      show '2'.toNat = 50 from rfl, show '0'.toNat = 48 from rfl]⟩

/-- C7, counterexample: an input with non-letters where field letters are
expected is NOT rejected: ord accepts any character, so the locator 1100
resolves to the out-of-range point (-249.5, -499) instead of the
unresolved sentinel. -/
theorem C7_counterexample :
    maidenhead_to_latlon ("1100".toList) = some (-(499 / 2 : ℚ), -499) := by
  have h := maidenhead_eval4 '1' '1' '0' '0'
    (by decide) (by decide) (by decide) (by decide) (by decide) (by decide)
    (by decide) (by decide)
  rw [show ("1100".toList) = ['1', '1', '0', '0'] from rfl, h]
  norm_num [show '1'.toNat = 49 from rfl, show '0'.toNat = 48 from rfl]

/-- C7, amended: inputs shorter than 4 characters yield the unresolved
sentinel, and so do inputs whose stripped uppercased form still has
length at least 4 but carries a non-digit where a digit is expected
(position 3 or 4), because the int call raises and the except clause
returns the sentinel.  Non-letter characters in the letter positions are
not validated (see the counterexample), and the embedding is a total
function, so no input propagates an exception. -/
theorem C7_amended (grid : List Char) :
    (grid.length < 4 → maidenhead_to_latlon grid = none) ∧
    (4 ≤ (pyStrip (grid.map Char.toUpper)).length →
      (((pyStrip (grid.map Char.toUpper))[2]?).bind charDigit? = none ∨
        ((pyStrip (grid.map Char.toUpper))[3]?).bind charDigit? = none) →
      maidenhead_to_latlon grid = none) := by
  constructor
  · intro h
    simp [maidenhead_to_latlon, h]
  · intro hlen hdig
    by_cases h4 : grid.length < 4
    · simp [maidenhead_to_latlon, h4]
    · have hsq : ∀ lat lon : ℚ,
          squareAdd (pyStrip (grid.map Char.toUpper)) lat lon = none := by
        intro lat lon
        unfold squareAdd
        rw [if_pos hlen]
        rcases hdig with hd | hd
        · cases e : ((pyStrip (grid.map Char.toUpper))[3]?).bind charDigit? <;>
            simp [hd, e]
        · cases e : ((pyStrip (grid.map Char.toUpper))[2]?).bind charDigit? <;>
            simp [hd, e]
      obtain ⟨c0, h0⟩ : ∃ c, (pyStrip (grid.map Char.toUpper))[0]? = some c := by
        cases h0 : (pyStrip (grid.map Char.toUpper))[0]? with
        | none => exact absurd (List.getElem?_eq_none_iff.1 h0) (by omega)
        | some c => exact ⟨c, rfl⟩
      obtain ⟨c1, h1⟩ : ∃ c, (pyStrip (grid.map Char.toUpper))[1]? = some c := by
        cases h1 : (pyStrip (grid.map Char.toUpper))[1]? with
        | none => exact absurd (List.getElem?_eq_none_iff.1 h1) (by omega)
        | some c => exact ⟨c, rfl⟩
      simp [maidenhead_to_latlon, h4, h0, h1, hsq]

/-- C7, witness: AAXX has a non-digit in a digit position, satisfies the
hypotheses of the second part, and resolves to the sentinel. -/
theorem C7_amended_witness :
    (4 ≤ (pyStrip (("AAXX".toList).map Char.toUpper)).length ∧
      ((pyStrip (("AAXX".toList).map Char.toUpper))[2]?).bind charDigit? =
        none) ∧
    maidenhead_to_latlon ("AAXX".toList) = none :=
  ⟨by decide, (C7_amended ("AAXX".toList)).2 (by decide) (Or.inl (by decide))⟩

/-- processPart never stores an empty record in the records list when the
incoming list had none: the only append is guarded by the current record
being nonempty. -/
lemma processPart_records_ne_nil (st : List AdifRecord × AdifRecord)
    (part : List Char) (h : ∀ r ∈ st.1, r ≠ []) :
    ∀ r ∈ (processPart st part).1, r ≠ [] := by
  unfold processPart
  split
  · exact h
  · split
    · exact h
    · split
      · exact h
      · split
        · split
          · exact h
          · intro r hr
            rcases List.mem_append.1 hr with h1 | h1
            · exact h r h1
            · rw [List.mem_singleton] at h1
              subst h1
              assumption
        · split
          · exact h
          · exact h

/-- The nonempty-records invariant is preserved by the whole fold. -/
lemma foldl_records_ne_nil (parts : List (List Char))
    (st : List AdifRecord × AdifRecord) (h : ∀ r ∈ st.1, r ≠ []) :
    ∀ r ∈ (parts.foldl processPart st).1, r ≠ [] := by
  induction parts generalizing st with
  | nil => exact h
  | cons p ps ih => exact ih _ (processPart_records_ne_nil st p h)

/-- C1, amended: a chunk yields a record exactly when it produced at least
one nonempty field value; a CALL field is not required.  Every record
parse_adif emits holds at least one field, and the call-less input of
the counterexample yields one record holding only its band. -/
theorem C1_amended :
    (∀ (input : List Char) (r : AdifRecord), r ∈ parse_adif input → r ≠ []) ∧
    parse_adif ("<BAND:3>20M<EOR>".toList) =
      [[("BAND".toList, "20M".toList)]] := by
  constructor
  · intro input r hr
    unfold parse_adif finishRecords at hr
    have hrec := foldl_records_ne_nil (splitChar '<' input) ([], []) (by simp)
    split at hr
    · exact hrec r hr
    · rcases List.mem_append.1 hr with h1 | h1
      · exact hrec r h1
      · rw [List.mem_singleton] at h1
        subst h1
        assumption
  · decide

/-- C1, witness: the record of the counterexample input is a member of the
parse result and is nonempty. -/
theorem C1_amended_witness :
    ([("BAND".toList, "20M".toList)] ∈
      parse_adif ("<BAND:3>20M<EOR>".toList)) ∧
    [("BAND".toList, "20M".toList)] ≠ ([] : AdifRecord) :=
  ⟨by decide, C1_amended.1 ("<BAND:3>20M<EOR>".toList) _ (by decide)⟩

/-- A split of a list never yields the empty list of pieces. -/
lemma splitChar_ne_nil (sep : Char) (s : List Char) : splitChar sep s ≠ [] := by
  cases s with
  | nil => simp [splitChar]
  | cons c cs =>
    simp only [splitChar]
    split
    · simp
    · split <;> simp

/-- takeWhile keeps the whole list when the stopping character is absent.
-/
lemma takeWhile_eq_self_of_not_contains (cs : List Char)
    (h : cs.contains '<' = false) :
    cs.takeWhile (fun c => !(c == '<')) = cs := by
  induction cs with
  | nil => rfl
  | cons a t ih =>
    rw [List.contains_cons, Bool.or_eq_false_iff] at h
    have h1 : (a == '<') = false :=
      beq_eq_false_iff_ne.2 (Ne.symm (beq_eq_false_iff_ne.1 h.1))
    rw [List.takeWhile_cons, if_pos (by simp [h1]), ih h.2]

/-- The delimiter fallback of the source takes exactly the characters up
to the next opening bracket, or the whole remainder when none occurs. -/
lemma delimTake_eq_takeWhile (rest : List Char) :
    delimTake rest = rest.takeWhile (fun c => !(c == '<')) := by
  induction rest with
  | nil => rfl
  | cons c cs ih =>
    by_cases hc : c = '<'
    · subst hc
      simp only [delimTake]
      rw [if_pos (by simp), List.takeWhile_cons, if_neg (by simp)]
      rw [show splitChar '<' ('<' :: cs) = [] :: splitChar '<' cs from by
        simp [splitChar]]
      rfl
    · rw [List.takeWhile_cons, if_pos (by simp [hc])]
      by_cases hcs : cs.contains '<' = true
      · obtain ⟨p, ps, hsp⟩ : ∃ p ps, splitChar '<' cs = p :: ps := by
          cases h : splitChar '<' cs with
          | nil => exact absurd h (splitChar_ne_nil '<' cs)
          | cons p ps => exact ⟨p, ps, rfl⟩
        have hdc : p = cs.takeWhile (fun c => !(c == '<')) := by
          rw [← ih]
          simp only [delimTake]
          rw [if_pos hcs, hsp]
          rfl
        simp only [delimTake]
        rw [if_pos (by
          simp only [List.contains_cons, Bool.or_eq_true]
          exact Or.inr hcs)]
        rw [show splitChar '<' (c :: cs) = (c :: p) :: ps from by
          simp only [splitChar, if_neg hc, hsp]]
        rw [List.headD_cons, hdc]
      · have hcs2 : cs.contains '<' = false := by
          cases h : cs.contains '<'
          · rfl
          · exact absurd h hcs
        simp only [delimTake]
        rw [if_neg (by
          simp only [List.contains_cons, Bool.or_eq_true]
          rintro (hb | hb)
          · exact hc (beq_iff_eq.1 hb).symm
          · rw [hcs2] at hb
            cases hb)]
        rw [takeWhile_eq_self_of_not_contains cs hcs2]

/-- C6: the decoder is total by construction (every Python exception path
is modelled as a value and parse_adif is a total function), and whenever
the declared length of a tag is absent (no colon) or unparsable (the int
raises), the field value falls back to delimiter-based extraction: all
the characters up to the next opening bracket, or to the end of the
chunk when none occurs. -/
theorem C6_length_fallback :
    (∀ rest : List Char,
      delimTake rest = rest.takeWhile (fun c => !(c == '<'))) ∧
    (∀ (recs : List AdifRecord) (cur : AdifRecord)
      (part tagPart rest fname : List Char) (tagRest : List (List Char)),
      ¬ pyStrip part = [] →
      splitFirst '>' part = some (tagPart, rest) →
      splitChar ':' tagPart = fname :: tagRest →
      (tagRest = [] ∨
        ∃ lenStr l, tagRest = lenStr :: l ∧ pyInt? lenStr = none) →
      ¬ pyStrip (fname.map Char.toUpper) = ['E', 'O', 'R'] →
      processPart (recs, cur) part =
        (if pyStrip (rest.takeWhile (fun c => !(c == '<'))) = [] then
          (recs, cur)
        else
          (recs, dictSet cur (pyStrip (fname.map Char.toUpper))
            (pyStrip (rest.takeWhile (fun c => !(c == '<'))))))) := by
  refine ⟨delimTake_eq_takeWhile, ?_⟩
  intro recs cur part tagPart rest fname tagRest hstrip hsplit htag hlen hname
  have hex : extractRaw tagRest rest = delimTake rest := by
    rcases hlen with rfl | ⟨lenStr, l, rfl, hint⟩
    · rfl
    · simp only [extractRaw, hint]
  simp only [processPart, hsplit, htag, hex, delimTake_eq_takeWhile]
  rw [if_neg hstrip, if_neg hname]

/-- C6, witness: the tag CALL:xx has an unparsable length, and the whole
value up to the chunk end is extracted. -/
theorem C6_length_fallback_witness :
    pyInt? ("xx".toList) = none ∧
    processPart ([], []) ("CALL:xx>W1ABC".toList) =
      ([], [("CALL".toList, "W1ABC".toList)]) := by
  constructor
  · decide
  · have h := C6_length_fallback.2 [] [] ("CALL:xx>W1ABC".toList)
      ("CALL:xx".toList) ("W1ABC".toList) ("CALL".toList) ["xx".toList]
      (by decide) (by decide) (by decide)
      (Or.inr ⟨"xx".toList, [], rfl, by decide⟩) (by decide)
    rw [h]
    decide

/-- Splitting distributes over an append whose junction is a separator. -/
lemma splitChar_append_sep (sep : Char) (s r : List Char) :
    splitChar sep (s ++ sep :: r) = splitChar sep s ++ splitChar sep r := by
  induction s with
  | nil => simp [splitChar]
  | cons c cs ih =>
    rw [List.cons_append]
    by_cases hc : c = sep
    · subst hc
      have hh : ∀ t, splitChar c (c :: t) = [] :: splitChar c t := fun t => by
        simp [splitChar]
      rw [hh, hh, ih]
      rfl
    · cases h : splitChar sep cs with
      | nil => exact absurd h (splitChar_ne_nil sep cs)
      | cons p ps =>
        have hh : ∀ t, splitChar sep (c :: t) =
            match splitChar sep t with
            | [] => [[c]]
            | q :: qs => (c :: q) :: qs := fun t => by
          simp [splitChar, hc]
        rw [hh, hh, ih, h]
        simp

/-- Processing the piece EOR-closing-bracket flushes the current record:
exactly the effect of the final lines of parse_adif. -/
lemma processPart_eor (st : List AdifRecord × AdifRecord) :
    processPart st ['E', 'O', 'R', '>'] = (finishRecords st, []) := rfl

/-- C10: a trailing record does not need a closing EOR marker: appending
an end-of-record marker to any input changes nothing, and an input whose
last field is not followed by EOR still yields that record. -/
theorem C10_trailing_record :
    (∀ s : List Char, parse_adif (s ++ "<EOR>".toList) = parse_adif s) ∧
    parse_adif ("<CALL:5>W1ABC".toList) =
      [[("CALL".toList, "W1ABC".toList)]] := by
  constructor
  · intro s
    rw [show s ++ "<EOR>".toList = s ++ '<' :: ['E', 'O', 'R', '>'] from rfl]
    unfold parse_adif
    rw [splitChar_append_sep,
      show splitChar '<' ['E', 'O', 'R', '>'] = [['E', 'O', 'R', '>']] from
        rfl,
      List.foldl_append, List.foldl_cons, List.foldl_nil, processPart_eor]
    rfl
  · decide

/-- The true-coordinate component of a jittered row is the input row. -/
lemma jitterRow_fst (base : List (ℚ × ℚ)) (k : ℕ) (p : ℚ × ℚ) :
    (jitterRow base k p).1 = p := by
  unfold jitterRow
  split <;> rfl

/-- Mapping the true-coordinate projection over the jittered rows gives
back the input frame. -/
lemma jitterFrom_map_fst (base l : List (ℚ × ℚ)) (k : ℕ) :
    (jitterFrom base k l).map Prod.fst = l := by
  induction l generalizing k with
  | nil => rfl
  | cons p t ih =>
    simp only [jitterFrom, List.map_cons, jitterRow_fst, ih]

/-- Row j of the jittered tail starting at position k is row j of the
tail, jittered at frame position k plus j. -/
lemma jitterFrom_getElem (base l : List (ℚ × ℚ)) (k j : ℕ) :
    (jitterFrom base k l)[j]? = (l[j]?).map (jitterRow base (k + j)) := by
  induction l generalizing k j with
  | nil => simp [jitterFrom]
  | cons p t ih =>
    cases j with
    | zero => simp [jitterFrom]
    | succ j =>
      simp only [jitterFrom, List.getElem?_cons_succ]
      rw [show k + (j + 1) = k + 1 + j from by omega]
      exact ih (k + 1) j

/-- A point moved by 0.15 along both sin and cos of one angle is never the
original point, since sin and cos cannot vanish together. -/
lemma display_ne (x y a : ℝ) :
    ((x + 0.15 * Real.sin a, y + 0.15 * Real.cos a) : ℝ × ℝ) ≠ (x, y) := by
  intro h
  rw [Prod.mk.injEq] at h
  have hs : Real.sin a = 0 := by linarith [h.1]
  have hc : Real.cos a = 0 := by linarith [h.2]
  have hone := Real.sin_sq_add_cos_sq a
  rw [hs, hc] at hone
  norm_num at hone

/-- C8: the jitter is a pure display transform.  The true coordinates of
every row are unchanged; a row whose coordinate is unique in the frame,
or which is the first of its duplicate group, keeps its true pair as the
display pair; and later members of a duplicate group get a display pair
that really differs from the true pair. -/
theorem C8_jitter_pure :
    (∀ df : List (ℚ × ℚ), (add_jitter_to_duplicates df).map Prod.fst = df) ∧
    (∀ (df : List (ℚ × ℚ)) (k : ℕ) (p : ℚ × ℚ), df[k]? = some p →
      ((df.filter (fun q => decide (q = p))).length = 1 ∨
        ((df.take k).filter (fun q => decide (q = p))).length = 0) →
      (add_jitter_to_duplicates df)[k]? =
        some (p, ((p.1 : ℝ), (p.2 : ℝ)))) ∧
    (∀ (df : List (ℚ × ℚ)) (k : ℕ) (p : ℚ × ℚ), df[k]? = some p →
      1 < (df.filter (fun q => decide (q = p))).length →
      0 < ((df.take k).filter (fun q => decide (q = p))).length →
      ∃ d : ℝ × ℝ, (add_jitter_to_duplicates df)[k]? = some (p, d) ∧
        d ≠ ((p.1 : ℝ), (p.2 : ℝ))) := by
  have hget : ∀ (df : List (ℚ × ℚ)) (k : ℕ) (p : ℚ × ℚ), df[k]? = some p →
      (add_jitter_to_duplicates df)[k]? = some (jitterRow df k p) := by
    intro df k p hk
    unfold add_jitter_to_duplicates
    rw [jitterFrom_getElem, hk, Nat.zero_add]
    rfl
  refine ⟨fun df => jitterFrom_map_fst df df 0, ?_, ?_⟩
  · intro df k p hk hcase
    rw [hget df k p hk]
    unfold jitterRow
    rw [if_neg (by rcases hcase with h | h <;> simp [h])]
  · intro df k p hk h1 h2
    rw [hget df k p hk]
    unfold jitterRow
    rw [if_pos ⟨h1, h2⟩]
    exact ⟨_, rfl, display_ne _ _ _⟩

/-- C8, witness: in a frame with one duplicate pair and one unique row,
the unique row keeps its coordinates as display coordinates. -/
theorem C8_jitter_pure_witness :
    ([((0 : ℚ), 0), (0, 0), (1, 2)][2]? = some ((1 : ℚ), 2)) ∧
    (add_jitter_to_duplicates [((0 : ℚ), 0), (0, 0), (1, 2)])[2]? =
      some (((1 : ℚ), 2), (((1 : ℚ) : ℝ), ((2 : ℚ) : ℝ))) :=
  ⟨by decide, C8_jitter_pure.2.1 [((0 : ℚ), 0), (0, 0), (1, 2)] 2 ((1 : ℚ), 2)
    (by decide) (Or.inl (by decide))⟩

/-- C9, counterexample: with two rows at the same point, the claim
predicts the second row is displaced by sin and cos of the exact angle
2 pi times 1 over 2; the code instead uses the literal 3.14159, whose
sine is positive, so the displayed latitude differs from the predicted
one (the prediction has sin of pi, which is zero). -/
theorem C9_counterexample :
    ¬ (add_jitter_to_duplicates [((0 : ℚ), 0), (0, 0)])[1]? =
      some (((0 : ℚ), 0),
        ((0 : ℝ) + 0.15 * Real.sin (2 * Real.pi * 1 / 2),
          (0 : ℝ) + 0.15 * Real.cos (2 * Real.pi * 1 / 2))) := by
  intro heq
  have hget : (add_jitter_to_duplicates [((0 : ℚ), 0), (0, 0)])[1]? =
      some (jitterRow [((0 : ℚ), 0), (0, 0)] 1 ((0 : ℚ), 0)) := by
    unfold add_jitter_to_duplicates
    rw [jitterFrom_getElem]
    rfl
  rw [hget] at heq
  unfold jitterRow at heq
  rw [if_pos ⟨by decide, by decide⟩] at heq
  simp only [show (([((0 : ℚ), 0), (0, 0)].take 1).filter
      (fun q => decide (q = ((0 : ℚ), 0)))).length = 1 from by decide,
    show ([((0 : ℚ), 0), (0, 0)].filter
      (fun q => decide (q = ((0 : ℚ), 0)))).length = 2 from by decide] at heq
  rw [Option.some.injEq, Prod.mk.injEq] at heq
  have h := heq.2
  rw [Prod.mk.injEq] at h
  have h1 := h.1
  push_cast at h1
  rw [show (2 : ℝ) * Real.pi * 1 / 2 = Real.pi from by ring,
    Real.sin_pi] at h1
  norm_num at h1
  have hpos : 0 < Real.sin ((314159 : ℝ) / 100000) := by
    apply Real.sin_pos_of_pos_of_lt_pi
    · norm_num
    · have hp := Real.pi_gt_d6
      have hlt : (314159 : ℝ) / 100000 < 3.141592 := by norm_num
      linarith
  exact absurd h1 (ne_of_gt hpos)

/-- C9, amended: later members of a duplicate group at in-group index i
(1-based among the duplicates, the first member excluded) of a group of
size n get display coordinates offset by 0.15 times sin, respectively
cos, of the angle 2 times 3.14159 times i over n: the structure of the
spec formula, with the literal 3.14159 of the source in place of pi. -/
theorem C9_amended (df : List (ℚ × ℚ)) (k : ℕ) (p : ℚ × ℚ)
    (hk : df[k]? = some p)
    (h1 : 1 < (df.filter (fun q => decide (q = p))).length)
    (h2 : 0 < ((df.take k).filter (fun q => decide (q = p))).length) :
    (add_jitter_to_duplicates df)[k]? =
      some (p, ((p.1 : ℝ) + 0.15 * Real.sin
          ((2 * 3.14159 *
            (((df.take k).filter (fun q => decide (q = p))).length : ℝ)) /
            ((df.filter (fun q => decide (q = p))).length : ℝ)),
        (p.2 : ℝ) + 0.15 * Real.cos
          ((2 * 3.14159 *
            (((df.take k).filter (fun q => decide (q = p))).length : ℝ)) /
            ((df.filter (fun q => decide (q = p))).length : ℝ)))) := by
  have hget : (add_jitter_to_duplicates df)[k]? =
      some (jitterRow df k p) := by
    unfold add_jitter_to_duplicates
    rw [jitterFrom_getElem, hk, Nat.zero_add]
    rfl
  rw [hget]
  unfold jitterRow
  rw [if_pos ⟨h1, h2⟩]

/-- C9, witness: the second of two identical rows is displaced by the
formula with i equal 1 and n equal 2. -/
theorem C9_amended_witness :
    ([((0 : ℚ), 0), (0, 0)][1]? = some ((0 : ℚ), 0)) ∧
    (add_jitter_to_duplicates [((0 : ℚ), 0), (0, 0)])[1]? =
      some (((0 : ℚ), 0),
        (((0 : ℚ) : ℝ) + 0.15 * Real.sin
            ((2 * 3.14159 *
              ((([((0 : ℚ), 0), (0, 0)].take 1).filter
                (fun q => decide (q = ((0 : ℚ), 0)))).length : ℝ)) /
              (([((0 : ℚ), 0), (0, 0)].filter
                (fun q => decide (q = ((0 : ℚ), 0)))).length : ℝ)),
          ((0 : ℚ) : ℝ) + 0.15 * Real.cos
            ((2 * 3.14159 *
              ((([((0 : ℚ), 0), (0, 0)].take 1).filter
                (fun q => decide (q = ((0 : ℚ), 0)))).length : ℝ)) /
              (([((0 : ℚ), 0), (0, 0)].filter
                (fun q => decide (q = ((0 : ℚ), 0)))).length : ℝ)))) :=
  ⟨by decide, C9_amended [((0 : ℚ), 0), (0, 0)] 1 ((0 : ℚ), 0) (by decide)
    (by decide) (by decide)⟩

end QSO
